import Mathlib

/-
Verification of the path-conflict and deadlock-prediction feature engine
of the flatland-challenge repository (observations.py).

Shallow embedding conventions:
- Python floats are modelled as rationals; numpy arrays over a fixed
  max_depth are modelled as total functions from the index type, with
  claims quantified over the populated indices.
- A graph node (row, column, orientation) is a triple of integers; a cell
  position (row, column) is a pair of integers.
- The value +infinity used as a placeholder in the distance arrays is
  modelled by Option: none stands for +infinity, some q for a finite value.
-/

namespace FlatlandObs

/-- A node of the routing graph: (row, column, orientation). -/
abbrev Node : Type := ℤ × ℤ × ℤ

/-- A cell position: (row, column). -/
abbrev Pos : Type := ℤ × ℤ

/-- Drop the orientation component of a node (python node[:-1]). -/
def pos2 (n : Node) : Pos := (n.1, n.2.1)

/-- Dummy node used as default for in-bounds list indexing. -/
def dummyNode : Node := (0, 0, 0)

/-- Dummy position used as default for in-bounds list indexing. -/
def dummyPos : Pos := (0, 0)

/-- The (-1, -1) filler that marks unused slots in the position arrays. -/
def fillPos : Pos := (-1, -1)

/-- SpeedData (observations.py line 68): times is the total number of turns
required for an agent to complete a cell, remaining is the number of turns
left to complete the current cell. -/
structure SpeedData where
  times : ℤ
  remaining : ℤ
deriving DecidableEq

/-- Python int() applied to a rational: truncation toward zero. -/
def pyInt (q : ℚ) : ℤ := if 0 ≤ q then ⌊q⌋ else ⌈q⌉

/-- np.clip(x, 0.0, 1.0) (observations.py line 142). -/
def clip01 (x : ℚ) : ℚ := max 0 (min 1 x)

/-- times_per_cell = int(np.reciprocal(speed)) (observations.py line 110,
in the init of agents at reset). -/
def initTimes (speed : ℚ) : ℤ := pyInt (1 / speed)

/-- remaining_turns_in_cell, recomputed each tick in the shortest-path update
(observations.py lines 139-144): int((1 - clip(position_fraction, 0, 1)) / speed)
when speed < 1.0, else 0. -/
def updateRemaining (speed frac : ℚ) : ℤ :=
  if speed < 1 then pyInt ((1 - clip01 frac) / speed) else 0

/-- The per-tick SpeedData update (observations.py lines 145-148): times is
carried over unchanged, remaining is recomputed. -/
def updateSpeedData (sd : SpeedData) (speed frac : ℚ) : SpeedData :=
  ⟨sd.times, updateRemaining speed frac⟩

/-- np.cumsum on a list of rationals. -/
def cumsumFrom (acc : ℚ) : List ℚ → List ℚ
  | [] => []
  | x :: xs => (acc + x) :: cumsumFrom (acc + x) xs

/-- compute_cumulative_weights (observations.py lines 290-299): cumulative sum
of the initial distance followed by the edge weights, each edge weight
multiplied by the agent's per-cell turn count. -/
def compute_cumulative_weights (times : ℤ) (edgeWeights : List ℚ)
    (initialDistance : ℚ) : List ℚ :=
  cumsumFrom 0 (initialDistance :: edgeWeights.map (fun w => w * (times : ℚ)))

/-- The distance tie-break of agents_in_path (observations.py lines 373-377).
The stored entry is none when it still holds the +infinity placeholder. -/
def updateDistance (stored : Option ℚ) (d : ℚ) : Option ℚ :=
  match stored with
  | none => some d
  | some s =>
      if (0 ≤ d ∧ d < s) ∨ (d ≤ 0 ∧ s < d) ∨ (0 ≤ d ∧ s < 0) then some d
      else some s

/-- Definition following the words of claim C2 (for comparison with the
code): an existing +infinity placeholder is always replaced; in the same
sign bucket the candidate with strictly smaller magnitude is kept; a stored
non-negative value is always replaced by a negative candidate. -/
def claimedUpdateDistance (stored : Option ℚ) (d : ℚ) : Option ℚ :=
  match stored with
  | none => some d
  | some s =>
      if (((0 ≤ s ∧ 0 ≤ d) ∨ (s ≤ 0 ∧ d ≤ 0)) ∧ |d| < |s|) ∨ (0 ≤ s ∧ d < 0)
      then some d
      else some s

/-- Per-agent leading-node packing from _get_shortest_packed_positions
(observations.py lines 450-480): the leading position becomes the last
visited node; the leading cumulative weight is recomputed as
-(ticks accumulated since leaving that node + times - remaining) when the
leading path node differs from the last visited node, and kept otherwise.
Later positions and weights are the tails of the original arrays. -/
def packAgent (lastNode : Node) (lastW : ℚ) (sd : SpeedData)
    (path : List Node) (positions : List Pos) (cumW : List ℚ) :
    List Pos × List ℚ :=
  let w0 : ℚ :=
    if path.headD dummyNode ≠ lastNode then
      -(lastW + (sd.times : ℚ) - (sd.remaining : ℚ))
    else cumW.headD 0
  (pos2 lastNode :: positions.tail, w0 :: cumW.tail)

/-- Modelled from the spec: utils.get_index is not under src; section 4.4
step 2 of the spec asks for the first node of the path equal to the given
node, so get_index returns the index of the first occurrence of the node in
the path, if any. -/
def get_index (path : List Node) (n : Node) : Option ℕ :=
  path.findIdx? (fun m => m == n)

/-- The scan over colocated nodes in agents_in_path (observations.py lines
337-339 with the break at line 385): the first colocated node that occurs in
the path, together with its index there. -/
def firstColocatedMatch (path : List Node) : List Node → Option (Node × ℕ)
  | [] => none
  | n :: rest =>
      match get_index path n with
      | some i => some (n, i)
      | none => firstColocatedMatch path rest

/-- The direction classification of agents_in_path (observations.py lines
352-365): a matched conflict is opposite-direction (channel 1) when the
matched node differs from the other agent's next node and at least one of
the three listed conditions holds, otherwise same-direction (channel 0). -/
def classifyOpposite (path : List Node) (index : ℕ) (node otherNode : Node)
    (nextNodes : List Node) : Bool :=
  let differentNode := otherNode ≠ node
  let moreThanOneChoice := nextNodes.length > 1
  let lastNodeInPath := path.length ≤ index + 1
  let differentOneChoice :=
    ¬lastNodeInPath ∧ nextNodes.length > 0 ∧
      nextNodes.headD dummyNode ≠ path.getD (index + 1) dummyNode
  decide (differentNode ∧ (moreThanOneChoice ∨ lastNodeInPath ∨ differentOneChoice))

/-- The signed conflict distance of agents_in_path (observations.py lines
361-365 and 372): the turn distance to the other agent is negated for a
same-direction conflict before being added to the baseline. -/
def matchDistance (baseline turns : ℚ) (opposite : Bool) : ℚ :=
  baseline + (if opposite then turns else -turns)

/-- Everything agents_in_path reads about one other agent through the
railway encoding and the environment (observations.py lines 322-334, 380).
present is false when the agent position is None (DONE_REMOVED). -/
structure OtherAgent where
  present : Bool
  node : Node
  nextNodeDistance : ℚ
  colocated : List Node
  nextNodes : List Node
  malfunction : ℚ
  speed : SpeedData

/-- The mutable state of agents_in_path (observations.py lines 315-319):
agent counts over 4 channels, minimum signed distances over 2 channels
(none models the +infinity initialization), maximum malfunction turns over
2 channels. Arrays are modelled as total functions on the indices. -/
structure AIPState where
  num_agents : ℕ → ℕ → ℚ
  distances : ℕ → ℕ → Option ℚ
  malfunctions : ℕ → ℕ → ℚ

/-- num_agents[index:len(path), channel] += 1 (observations.py lines 368
and 382). -/
def rangeIncrement (f : ℕ → ℕ → ℚ) (lo len chan : ℕ) : ℕ → ℕ → ℚ :=
  fun j c => if lo ≤ j ∧ j < len ∧ c = chan then f j c + 1 else f j c

/-- The initial num_agents array of agents_in_path (observations.py lines
315-317): zeros, unless a previous-count row is supplied, in which case that
row is broadcast to every node index. -/
def aipInit (prev : Option (ℕ → ℚ)) : ℕ → ℕ → ℚ :=
  match prev with
  | some row => fun _ c => row c
  | none => fun _ _ => 0

/-- The agent-count update of agents_in_path (observations.py lines 367-368
and 379-382): the total channel of the matched direction is incremented over
the suffix of the path from the matched index, and the malfunction channel
(direction + 2) over the same suffix exactly when the other agent's
malfunction duration is positive. -/
def numUpdate (num : ℕ → ℕ → ℚ) (index len dir : ℕ) (mal : ℚ) :
    ℕ → ℕ → ℚ :=
  if 0 < mal then
    rangeIncrement (rangeIncrement num index len dir) index len (dir + 2)
  else rangeIncrement num index len dir

/-- The body of the loop over other agents in agents_in_path
(observations.py lines 322-385), acting on the accumulated state. -/
def processOtherAgent (selfSD : SpeedData) (path : List Node)
    (cumWeights : ℕ → ℚ) (st : AIPState) (ag : OtherAgent) : AIPState :=
  if ag.present then
    match firstColocatedMatch path ag.colocated with
    | none => st
    | some (otherNode, index) =>
        let baseline : ℚ :=
          if cumWeights index < (selfSD.times : ℚ) then
            (selfSD.remaining : ℚ) - (selfSD.times : ℚ)
          else cumWeights index
        let turns : ℚ :=
          |(ag.nextNodeDistance -
              (ag.speed.remaining : ℚ) / (ag.speed.times : ℚ)) *
            (selfSD.times : ℚ)|
        let opposite := classifyOpposite path index ag.node otherNode ag.nextNodes
        let direction : ℕ := if opposite then 1 else 0
        let dist := matchDistance baseline turns opposite
        { num_agents := numUpdate st.num_agents index path.length direction ag.malfunction
          distances := fun j c =>
            if j = index ∧ c = direction then
              updateDistance (st.distances index direction) dist
            else st.distances j c
          malfunctions := fun j c =>
            if j = index ∧ c = direction then
              max (st.malfunctions index direction) ag.malfunction
            else st.malfunctions j c }
  else st

/-- agents_in_path (observations.py lines 301-387), as a fold of the
per-agent body over the list of other agents. -/
def agents_in_path (selfSD : SpeedData) (path : List Node)
    (cumWeights : ℕ → ℚ) (prev : Option (ℕ → ℚ))
    (others : List OtherAgent) : AIPState :=
  others.foldl (processOtherAgent selfSD path cumWeights)
    ⟨aipInit prev, fun _ _ => none, fun _ _ => 0⟩

/-- Modelled from the spec: utils.reciprocal_sum is not under src; section
4.7 of the spec defines the harmonic combination of two per-cell tick counts
as times1 * times2 / (times1 + times2). -/
def reciprocal_sum (t1 t2 : ℤ) : ℚ := ((t1 : ℚ) * (t2 : ℚ)) / ((t1 : ℚ) + (t2 : ℚ))

/-- Everything find_deadlocks reads about one other agent: its packed
shortest positions, its packed cumulative weights and its SpeedData. -/
structure DLAgent where
  path : List Pos
  weights : ℕ → ℚ
  speed : SpeedData

/-- The state carried by find_deadlocks (observations.py lines 494-495):
the deadlock count and the turns to the first deadlock per node index
(none models the +infinity initialization of crash_turns). -/
structure DLState where
  deadlocks : ℕ → ℚ
  crash_turns : ℕ → Option ℚ

/-- The inner match test of find_deadlocks (observations.py lines 507-516):
the edge positions[j] -> positions[j+1] is the exact reverse of the other
agent's edge oi -> oi1 and the cumulative-weight windows intersect. -/
def edgeMatchB (positions : List Pos) (cw : ℕ → ℚ) (oi oi1 : Pos)
    (pwi pwi1 : ℚ) (j : ℕ) : Bool :=
  (positions.getD j dummyPos == oi1) && (positions.getD (j + 1) dummyPos == oi) &&
    !(decide (cw j > pwi1)) && !(decide (cw (j + 1) < pwi))

/-- The double scan of find_deadlocks (observations.py lines 502-517 with
the two breaks at lines 573 and 578): the first pair (i, j) in
lexicographic order such that the informative pair of nodes i, i+1 of the
other agent's packed path matches edge j, j+1 of this path. -/
def findFirstDeadlock (positions : List Pos) (cw : ℕ → ℚ)
    (opath : List Pos) (pw : ℕ → ℚ) : Option (ℕ × ℕ) :=
  (List.range (opath.length - 1)).findSome? (fun i =>
    if opath.getD i dummyPos ≠ fillPos ∧ opath.getD (i + 1) dummyPos ≠ fillPos then
      match (List.range (positions.length - 1)).find?
          (edgeMatchB positions cw (opath.getD i dummyPos)
            (opath.getD (i + 1) dummyPos) (pw i) (pw (i + 1))) with
      | some j => some (i, j)
      | none => none
    else none)

/-- The space and crash-turn arithmetic of find_deadlocks (observations.py
lines 518-563) for a deadlock found between my edge j, j+1 and the other
agent's edge i, i+1. -/
def crashTurn (selfSD : SpeedData) (cw : ℕ → ℚ) (ag : DLAgent)
    (i j : ℕ) : ℚ :=
  let space0 := (cw (j + 1) - cw j) / (selfSD.times : ℚ)
  let space :=
    if cw j < 0 ∧ ag.weights i < 0 then
      space0 + cw j / (selfSD.times : ℚ) + ag.weights i / (ag.speed.times : ℚ)
    else if cw j > ag.weights i then
      space0 - abs (cw j - abs (ag.weights i)) / (ag.speed.times : ℚ)
    else if ag.weights i > cw j then
      space0 + abs (ag.weights i - abs (cw j)) / (ag.speed.times : ℚ)
    else space0
  (⌈max (cw j) 0 + space / reciprocal_sum ag.speed.times selfSD.times⌉ : ℤ)

/-- The body of the loop over other agents in find_deadlocks
(observations.py lines 498-578): at most the first matched pair of edges
updates the state; the deadlock count is incremented from the matched index
to the end of the path and the minimum crash turn is stored there. -/
def processDeadlockAgent (selfSD : SpeedData) (positions : List Pos)
    (cw : ℕ → ℚ) (st : DLState) (ag : DLAgent) : DLState :=
  match findFirstDeadlock positions cw ag.path ag.weights with
  | none => st
  | some (i, j) =>
      let crash := crashTurn selfSD cw ag i j
      let ct : Option ℚ :=
        match st.crash_turns j with
        | none => some crash
        | some old => if old > crash then some crash else some old
      { deadlocks := fun k =>
          if j ≤ k ∧ k < positions.length then st.deadlocks k + 1
          else st.deadlocks k
        crash_turns := fun k => if k = j then ct else st.crash_turns k }

/-- find_deadlocks (observations.py lines 482-580), as a fold of the
per-agent body over the list of other agents, starting from the
prev_deadlocks baseline and all-infinite crash turns. -/
def find_deadlocks (selfSD : SpeedData) (positions : List Pos)
    (cw : ℕ → ℚ) (others : List DLAgent) (prevDeadlocks : ℚ) : DLState :=
  others.foldl (processDeadlockAgent selfSD positions cw)
    ⟨fun _ => prevDeadlocks, fun _ => none⟩

/-- common_nodes (observations.py lines 421-438): for each populated index
of the given positions, the sum over the other agents of the indicator that
the position occurs in that agent's stored shortest-position row. -/
def common_nodes (positions : List Pos) (others : List (List Pos)) :
    ℕ → ℚ :=
  fun k =>
    if k < positions.length then
      others.foldl
        (fun acc row =>
          acc + (if positions.getD k dummyPos ∈ row then 1 else 0)) 0
    else 0

/-- Definition following the words of claim C9 (for comparison with the
code): the number of other agents whose PACKED shortest path contains the
position, as direction-agnostic set membership. -/
def claimedCommonNodes (positions : List Pos)
    (packedRows : List (List Pos)) : ℕ → ℚ :=
  fun k =>
    ((packedRows.filter
        (fun row => decide (positions.getD k dummyPos ∈ row))).length : ℚ)

/-- The deadlock baseline chosen by get for the deviation path stored at
tensor row i+1 (observations.py lines 216-220): the shortest-path deadlock
count at node index i-1 when i is at least 1, and 0 otherwise. -/
def getPrevDeadlocks (shortestDeadlocks : ℕ → ℚ) (i : ℕ) : ℚ :=
  if 1 ≤ i then shortestDeadlocks (i - 1) else 0

/-- The agent-count seed chosen by get for the deviation path stored at
tensor row i+1 (observations.py lines 214-221): the shortest-path
agent-count row at node index i-1 when i is at least 1, absent otherwise. -/
def getPrevNumAgents (shortestCounts : ℕ → ℕ → ℚ) (i : ℕ) :
    Option (ℕ → ℚ) :=
  if 1 ≤ i then some (fun c => shortestCounts (i - 1) c) else none

/-- An IEEE value as it occurs in the observation tensor: minus infinity,
plus infinity, or a finite number. -/
inductive Val where
  | ninf : Val
  | pinf : Val
  | fin : ℚ → Val
deriving DecidableEq

/-- The normalization constants of CustomObservation (observations.py
lines 74-75). -/
def LOWER : ℚ := -1

/-- Upper bound of the normal scaling band (observations.py line 74). -/
def UPPER : ℚ := 1

/-- Lower sentinel bound (observations.py line 75). -/
def UNDER : ℚ := -2

/-- Upper sentinel bound (observations.py line 75). -/
def OVER : ℚ := 2

/-- Modelled from the spec: utils.min_max_scaling is not under src; section
4.8 of the spec prescribes min-max scaling of finite values into
[LOWER, UPPER] over the known window [kmin, kmax], with values outside the
window pushed into the wider sentinel band [UNDER, OVER] while staying
bounded, and infinities passing through the scaling untouched. -/
def min_max_scaling (kmin kmax : ℚ) : Val → Val
  | Val.ninf => Val.ninf
  | Val.pinf => Val.pinf
  | Val.fin q =>
      Val.fin (max UNDER (min OVER
        (if kmin < kmax then
          LOWER + (q - kmin) * (UPPER - LOWER) / (kmax - kmin)
        else LOWER)))

/-- The sanity rewrite of normalize (observations.py lines 646-648): a
residual minus infinity becomes UNDER, a residual plus infinity becomes
OVER. -/
def sentinelFix : Val → Val
  | Val.ninf => Val.fin UNDER
  | Val.pinf => Val.fin OVER
  | Val.fin q => Val.fin q

/-- The finite values among a list of tensor values. -/
def finiteVals (l : List Val) : List ℚ :=
  l.filterMap (fun v =>
    match v with
    | Val.fin q => some q
    | _ => none)

/-- Empirical minimum of a list of rationals (0 when empty, a modelling
default that claim C1 does not depend on). -/
def empMin (l : List ℚ) : ℚ :=
  match l with
  | [] => 0
  | x :: xs => xs.foldl min x

/-- Empirical maximum of a list of rationals (0 when empty). -/
def empMax (l : List ℚ) : ℚ :=
  match l with
  | [] => 0
  | x :: xs => xs.foldl max x

/-- All values stored at the listed feature channels of a tensor. -/
def channelVals (obs : List (List (List Val))) (fs : List ℕ) : List Val :=
  (obs.map (fun row =>
    (row.map (fun cell => fs.map (fun f => cell.getD f Val.ninf))).flatten)).flatten

/-- The known scaling window chosen by normalize for each feature channel
(observations.py lines 596-635): agent-count and deadlock channels use
[0, remaining agents], malfunction channels [0, max malfunction duration],
popularity [0, max_depth], and the three distance groups use the empirical
bounds of their own finite values in the current tensor. -/
def featureBounds (remainingAgents maxMalfunctions maxDepthQ : ℚ)
    (obs : List (List (List Val))) (f : ℕ) : ℚ × ℚ :=
  if f < 4 then (0, remainingAgents)
  else if f < 6 then
    let vs := finiteVals (channelVals obs [4, 5])
    (empMin vs, empMax vs)
  else if f < 8 then (0, maxMalfunctions)
  else if f = 8 then
    let vs := finiteVals (channelVals obs [8])
    (empMin vs, empMax vs)
  else if f = 9 then (0, maxDepthQ)
  else if f = 10 then (0, remainingAgents)
  else
    let vs := finiteVals (channelVals obs [11])
    (empMin vs, empMax vs)

/-- normalize (observations.py lines 582-656): every entry is min-max
scaled with the window of its feature channel, then residual infinities are
rewritten to the sentinels. -/
def normalize (remainingAgents maxMalfunctions maxDepthQ : ℚ)
    (obs : List (List (List Val))) : List (List (List Val)) :=
  obs.map (fun row =>
    row.map (fun cell =>
      cell.enum.map (fun p =>
        sentinelFix
          (min_max_scaling
            (featureBounds remainingAgents maxMalfunctions maxDepthQ obs p.1).1
            (featureBounds remainingAgents maxMalfunctions maxDepthQ obs p.1).2
            p.2))))

/-- A single tensor value lies in the closed sentinel band. -/
def inRangeVal : Val → Bool
  | Val.fin q => decide (UNDER ≤ q ∧ q ≤ OVER)
  | _ => false

/-- The assertion of normalize (observations.py lines 651-654): every entry
of the tensor lies in [UNDER, OVER]. -/
def normalizeAssert (remainingAgents maxMalfunctions maxDepthQ : ℚ)
    (obs : List (List (List Val))) : Bool :=
  ((normalize remainingAgents maxMalfunctions maxDepthQ obs).map
    (fun row => row.map (fun cell => cell.all inRangeVal))).all (fun r => r.all id)

/-! Helper lemmas. -/

/-- Every scaled-and-sanitized entry is a finite value in the sentinel band. -/
lemma scaled_entry_fin (kmin kmax : ℚ) (v : Val) :
    ∃ q, sentinelFix (min_max_scaling kmin kmax v) = Val.fin q ∧
      UNDER ≤ q ∧ q ≤ OVER := by
  cases v with
  | ninf => exact ⟨UNDER, rfl, le_refl _, by norm_num [UNDER, OVER]⟩
  | pinf => exact ⟨OVER, rfl, by norm_num [UNDER, OVER], le_refl _⟩
  | fin q =>
      refine ⟨_, rfl, le_max_left _ _, ?_⟩
      exact max_le (by norm_num [UNDER, OVER]) (min_le_left _ _)

/-- Boolean form of the previous lemma, matching the assertion predicate. -/
lemma scaled_entry_inRange (kmin kmax : ℚ) (v : Val) :
    inRangeVal (sentinelFix (min_max_scaling kmin kmax v)) = true := by
  obtain ⟨q, hq, h1, h2⟩ := scaled_entry_fin kmin kmax v
  rw [hq]
  simp only [inRangeVal, decide_eq_true_iff]
  exact ⟨h1, h2⟩

/-! Claim theorems. -/

/-- Claim C1: for every agent and every tick, the normalized feature tensor
returned by normalize has every entry in the closed interval
[UNDER, OVER] = [-2, 2]; any entry still equal to minus (resp. plus)
infinity after scaling is mapped exactly to UNDER = -2 (resp. OVER = 2),
and this bound is asserted after every computation. -/
theorem C1_normalize_in_range (ra mm md : ℚ) (obs : List (List (List Val))) :
    normalizeAssert ra mm md obs = true ∧
    (∀ row ∈ normalize ra mm md obs, ∀ cell ∈ row, ∀ v ∈ cell,
      ∃ q, v = Val.fin q ∧ UNDER ≤ q ∧ q ≤ OVER) ∧
    (∀ kmin kmax : ℚ, ∀ v : Val,
      (min_max_scaling kmin kmax v = Val.ninf →
        sentinelFix (min_max_scaling kmin kmax v) = Val.fin UNDER) ∧
      (min_max_scaling kmin kmax v = Val.pinf →
        sentinelFix (min_max_scaling kmin kmax v) = Val.fin OVER)) := by
  refine ⟨?_, ?_, ?_⟩
  · simp only [normalizeAssert, List.all_eq_true, id]
    intro r hr
    rw [List.mem_map] at hr
    obtain ⟨row, hrow, rfl⟩ := hr
    intro b hb
    rw [List.mem_map] at hb
    obtain ⟨cell, hcell, rfl⟩ := hb
    simp only [normalize, List.mem_map] at hrow
    obtain ⟨row0, hrow0, rfl⟩ := hrow
    simp only [List.mem_map] at hcell
    obtain ⟨cell0, hcell0, rfl⟩ := hcell
    simp only [List.all_eq_true]
    intro v hv
    rw [List.mem_map] at hv
    obtain ⟨p, hp, rfl⟩ := hv
    exact scaled_entry_inRange _ _ _
  · intro row hrow cell hcell v hv
    simp only [normalize, List.mem_map] at hrow
    obtain ⟨row0, hrow0, rfl⟩ := hrow
    rw [List.mem_map] at hcell
    obtain ⟨cell0, hcell0, rfl⟩ := hcell
    rw [List.mem_map] at hv
    obtain ⟨p, hp, rfl⟩ := hv
    obtain ⟨q, hq, h1, h2⟩ := scaled_entry_fin _ _ p.2
    exact ⟨q, hq, h1, h2⟩
  · intro kmin kmax v
    constructor <;> intro h <;> rw [h] <;> rfl

/-- Claim C1 witness: a concrete tensor passes the assertion, and a residual
minus infinity is rewritten to exactly UNDER. -/
theorem C1_normalize_in_range_witness :
    normalizeAssert 0 0 0 [[[Val.ninf, Val.pinf, Val.fin 7]]] = true ∧
    sentinelFix (min_max_scaling 0 0 Val.ninf) = Val.fin UNDER :=
  ⟨(C1_normalize_in_range 0 0 0 [[[Val.ninf, Val.pinf, Val.fin 7]]]).1,
    ((C1_normalize_in_range 0 0 0 []).2.2 0 0 Val.ninf).1 rfl⟩

/-- Claim C2 counterexample: with a stored non-negative distance 5 and a
newly computed negative candidate -3, the code keeps the stored 5, while
the tie-break stated by the claim would replace it with -3. -/
theorem C2_tie_break_counterexample :
    updateDistance (some 5) (-3) = some 5 ∧
    claimedUpdateDistance (some 5) (-3) = some (-3) := by
  constructor
  · norm_num [updateDistance]
  · norm_num [claimedUpdateDistance]

/-- Claim C2 (amended): in the agents_in_path distance update, an existing
plus-infinity placeholder is always replaced; when the stored value and the
candidate fall in the same sign bucket the one with strictly smaller
magnitude is kept; a stored negative value is always replaced by a newly
computed non-negative candidate; and a stored non-negative value is never
replaced by a negative candidate. -/
theorem C2_tie_break_amended (s d : ℚ) :
    updateDistance none d = some d ∧
    (0 ≤ s → 0 ≤ d → |d| < |s| → updateDistance (some s) d = some d) ∧
    (0 ≤ s → 0 ≤ d → |s| ≤ |d| → updateDistance (some s) d = some s) ∧
    (s ≤ 0 → d ≤ 0 → |d| < |s| → updateDistance (some s) d = some d) ∧
    (s ≤ 0 → d ≤ 0 → |s| ≤ |d| → updateDistance (some s) d = some s) ∧
    (s < 0 → 0 ≤ d → updateDistance (some s) d = some d) ∧
    (0 ≤ s → d < 0 → updateDistance (some s) d = some s) := by
  refine ⟨rfl, ?_, ?_, ?_, ?_, ?_, ?_⟩
  · intro hs hd habs
    rw [abs_of_nonneg hd, abs_of_nonneg hs] at habs
    simp only [updateDistance]
    split_ifs with h
    · rfl
    · exact absurd (Or.inl ⟨hd, habs⟩) h
  · intro hs hd habs
    rw [abs_of_nonneg hs, abs_of_nonneg hd] at habs
    simp only [updateDistance]
    split_ifs with h
    · exfalso
      rcases h with ⟨h1, h2⟩ | ⟨h1, h2⟩ | ⟨h1, h2⟩ <;> linarith
    · rfl
  · intro hs hd habs
    rw [abs_of_nonpos hd, abs_of_nonpos hs] at habs
    simp only [updateDistance]
    split_ifs with h
    · rfl
    · exact absurd (Or.inr (Or.inl ⟨hd, by linarith⟩)) h
  · intro hs hd habs
    rw [abs_of_nonpos hs, abs_of_nonpos hd] at habs
    simp only [updateDistance]
    split_ifs with h
    · exfalso
      rcases h with ⟨h1, h2⟩ | ⟨h1, h2⟩ | ⟨h1, h2⟩ <;> linarith
    · rfl
  · intro hs hd
    simp only [updateDistance]
    split_ifs with h
    · rfl
    · exact absurd (Or.inr (Or.inr ⟨hd, hs⟩)) h
  · intro hs hd
    simp only [updateDistance]
    split_ifs with h
    · exfalso
      rcases h with ⟨h1, h2⟩ | ⟨h1, h2⟩ | ⟨h1, h2⟩ <;> linarith
    · rfl

/-- Claim C2 witness: a stored negative value is replaced by a non-negative
candidate. -/
theorem C2_tie_break_amended_witness :
    updateDistance (some (-1 : ℚ)) 2 = some 2 :=
  (C2_tie_break_amended (-1) 2).2.2.2.2.2.1 (by norm_num) (by norm_num)

/-- Claim C4 counterexample: with speed 3/5, the per-cell tick count
computed by the code is int(1/speed) = 1, while rounding 1/speed = 5/3 to
the nearest integer gives 2. -/
theorem C4_times_counterexample :
    initTimes (3 / 5) = 1 ∧ round ((1 : ℚ) / (3 / 5)) = 2 := by
  constructor
  · norm_num [initTimes, pyInt]
  · norm_num [round_eq]

/-- Claim C4 (amended): for every agent with speed in (0, 1], the per-cell
tick count computed once at reset equals the truncation toward zero of
1/speed, which for a positive reciprocal is its floor (not the nearest
integer); the per-tick update preserves times, and each tick, if
speed < 1.0 the remaining count is floor((1 - clamp(position_fraction,
0, 1)) / speed), else 0. -/
theorem C4_speed_model_amended (speed frac : ℚ) (sd : SpeedData)
    (h1 : 0 < speed) (h2 : speed ≤ 1) :
    initTimes speed = ⌊1 / speed⌋ ∧
    (updateSpeedData sd speed frac).times = sd.times ∧
    (updateSpeedData sd speed frac).remaining =
      (if speed < 1 then ⌊(1 - clip01 frac) / speed⌋ else 0) := by
  refine ⟨?_, rfl, ?_⟩
  · unfold initTimes pyInt
    rw [if_pos]
    exact le_of_lt (by positivity)
  · have hc : clip01 frac ≤ 1 := max_le (by norm_num) (min_le_left 1 frac)
    show updateRemaining speed frac = _
    unfold updateRemaining pyInt
    split_ifs with hlt hq
    · rfl
    · exact absurd (div_nonneg (by linarith) h1.le) hq
    · rfl

/-- Claim C4 witness: at speed 1/2 the reset tick count is the floor of the
reciprocal. -/
theorem C4_speed_model_amended_witness :
    initTimes (1 / 2 : ℚ) = ⌊(1 : ℚ) / (1 / 2 : ℚ)⌋ :=
  (C4_speed_model_amended (1 / 2) 0 ⟨2, 0⟩ (by norm_num) (by norm_num)).1

/-- Claim C3 counterexample: take shortest-path deadlock counts 0, 1, 2, ...
and shortest-path agent counts 0, 1, 2, ... per node index. For the
deviation placed at tensor row 3 (branching from shortest node index 2),
the code seeds the deadlock baseline with the count at index 1 (value 1),
not with the count at the branch node index 2 (value 2); and with no other
agents the resulting agent count at index 0, an index before the branch
point, is 1, not the shortest value 0 at index 0. -/
theorem C3_seeding_counterexample :
    getPrevDeadlocks (fun n => (n : ℚ)) 2 = 1 ∧
    (fun n => (n : ℚ)) 2 = 2 ∧
    (find_deadlocks ⟨1, 0⟩ [(0, 0), (1, 1)] (fun _ => 0) []
        (getPrevDeadlocks (fun n => (n : ℚ)) 2)).deadlocks 0 = 1 ∧
    (agents_in_path ⟨1, 0⟩ [(0, 0, 0), (1, 1, 0), (2, 2, 0)] (fun _ => 0)
        (getPrevNumAgents (fun n _ => (n : ℚ)) 2) []).num_agents 0 0 = 1 ∧
    (fun (n : ℕ) (_ : ℕ) => (n : ℚ)) 0 0 = 0 := by
  refine ⟨?_, by norm_num, ?_, ?_, by norm_num⟩
  · norm_num [getPrevDeadlocks]
  · norm_num [find_deadlocks, getPrevDeadlocks]
  · norm_num [agents_in_path, aipInit, getPrevNumAgents]

/-- Claim C3 (amended): the deviation path placed at tensor row i+1 with
i at least 1 takes as deadlock-count baseline the shortest path's deadlock
count at node index i-1 (the node before the branch node), and its
agent-count accumulator is seeded uniformly at every node index with the
shortest path's agent-count row at index i-1; the first deviation (i = 0)
starts from baseline 0 and zero counts. -/
theorem C3_seeding_amended (sd : ℕ → ℚ) (sc : ℕ → ℕ → ℚ) (i j c : ℕ)
    (hi : 1 ≤ i) (selfSD : SpeedData) (positions : List Pos) (cw : ℕ → ℚ)
    (path : List Node) (cw2 : ℕ → ℚ) :
    getPrevDeadlocks sd i = sd (i - 1) ∧
    (find_deadlocks selfSD positions cw [] (getPrevDeadlocks sd i)).deadlocks j
      = sd (i - 1) ∧
    aipInit (getPrevNumAgents sc i) j c = sc (i - 1) c ∧
    (agents_in_path selfSD path cw2 (getPrevNumAgents sc i) []).num_agents j c
      = sc (i - 1) c ∧
    getPrevDeadlocks sd 0 = 0 ∧
    aipInit (getPrevNumAgents sc 0) j c = 0 := by
  refine ⟨?_, ?_, ?_, ?_, ?_, ?_⟩ <;>
    simp [getPrevDeadlocks, getPrevNumAgents, find_deadlocks, agents_in_path,
      aipInit, hi]

/-- Claim C3 witness: the amended seeding contract at row 2 (i = 1). -/
theorem C3_seeding_amended_witness :
    getPrevDeadlocks (fun n => (n : ℚ)) 1 = ((1 - 1 : ℕ) : ℚ) :=
  (C3_seeding_amended (fun n => (n : ℚ)) (fun n _ => (n : ℚ)) 1 0 0
    (by norm_num) ⟨1, 0⟩ [] (fun _ => 0) [] (fun _ => 0)).1

/-- Claim C5: per-agent packing of the shortest path. The packed leading
position is the last visited node; when the leading path node differs from
the last visited node the packed leading cumulative weight is
-(ticks accumulated since leaving that node + times - remaining), otherwise
the first cumulative weight is kept; all later positions and weights are
the unchanged tails. -/
theorem C5_packed_positions (lastNode : Node) (lastW : ℚ) (sd : SpeedData)
    (p0 : Node) (rest : List Node) (positions : List Pos) (cumW : List ℚ) :
    ((packAgent lastNode lastW sd (p0 :: rest) positions cumW).1.head?
      = some (pos2 lastNode)) ∧
    (p0 ≠ lastNode →
      (packAgent lastNode lastW sd (p0 :: rest) positions cumW).2.head?
        = some (-(lastW + (sd.times : ℚ) - (sd.remaining : ℚ)))) ∧
    (p0 = lastNode →
      (packAgent lastNode lastW sd (p0 :: rest) positions cumW).2.head?
        = some (cumW.headD 0)) ∧
    ((packAgent lastNode lastW sd (p0 :: rest) positions cumW).1.tail
      = positions.tail) ∧
    ((packAgent lastNode lastW sd (p0 :: rest) positions cumW).2.tail
      = cumW.tail) := by
  refine ⟨rfl, ?_, ?_, rfl, rfl⟩
  · intro h
    simp [packAgent, h]
  · intro h
    simp [packAgent, h]

/-- Claim C5 witness: a concrete mid-edge agent gets the recomputed negative
leading weight. -/
theorem C5_packed_positions_witness :
    (packAgent (1, 1, 0) 3 ⟨2, 1⟩ [(0, 0, 0)] [(0, 0)] [5]).2.head?
      = some (-(3 + ((2 : ℤ) : ℚ) - ((1 : ℤ) : ℚ))) :=
  (C5_packed_positions (1, 1, 0) 3 ⟨2, 1⟩ (0, 0, 0) [] [(0, 0)] [5]).2.1
    (by decide)

/-- Claim C7: a matched conflict is classified opposite-direction exactly
when the matched node differs from the other agent's actual next node and
(that next node has more than one successor, or the match occurs at the
last node of this agent's path, or the other agent's first successor exists
and differs from this path's node following the match); otherwise it is
same-direction and the turn distance is negated before being added to the
baseline distance. -/
theorem C7_direction_classification (path : List Node) (index : ℕ)
    (node otherNode : Node) (nextNodes : List Node) :
    (classifyOpposite path index node otherNode nextNodes = true ↔
      (otherNode ≠ node ∧
        (1 < nextNodes.length ∨ path.length ≤ index + 1 ∨
          (nextNodes ≠ [] ∧
            nextNodes.headD dummyNode ≠ path.getD (index + 1) dummyNode)))) ∧
    (∀ baseline turns : ℚ,
      matchDistance baseline turns false = baseline - turns) := by
  constructor
  · simp only [classifyOpposite, decide_eq_true_iff, gt_iff_lt,
      List.length_pos, not_le]
    constructor
    · rintro ⟨h1, h2 | h2 | ⟨hlt, hne, hh⟩⟩
      · exact ⟨h1, Or.inl h2⟩
      · exact ⟨h1, Or.inr (Or.inl h2)⟩
      · exact ⟨h1, Or.inr (Or.inr ⟨hne, hh⟩)⟩
    · rintro ⟨h1, h2 | h2 | ⟨hne, hh⟩⟩
      · exact ⟨h1, Or.inl h2⟩
      · exact ⟨h1, Or.inr (Or.inl h2)⟩
      · rcases le_or_lt path.length (index + 1) with hl | hl
        · exact ⟨h1, Or.inr (Or.inl hl)⟩
        · exact ⟨h1, Or.inr (Or.inr ⟨hl, hne, hh⟩)⟩
  · intro b t
    simp [matchDistance, sub_eq_add_neg]

/-- Claim C7 witness: the same-direction distance at concrete values. -/
theorem C7_direction_classification_witness :
    matchDistance 5 2 false = 5 - 2 :=
  (C7_direction_classification [] 0 dummyNode dummyNode []).2 5 2

/-- Claim C9 counterexample: the other agent's stored shortest-position row
is [(1,1), (2,2)]; its packed shortest path replaces the leading node with
the last visited node (5,5,0), yielding [(5,5), (2,2)]. For the path
position (5,5), the code counts 0 other agents, but the claimed count over
packed shortest paths is 1. -/
theorem C9_common_nodes_counterexample :
    common_nodes [(5, 5)] [[(1, 1), (2, 2)]] 0 = 0 ∧
    claimedCommonNodes [(5, 5)]
      [(packAgent (5, 5, 0) 0 ⟨1, 0⟩ [(1, 1, 0), (2, 2, 0)]
          [(1, 1), (2, 2)] [0, 1]).1] 0 = 1 := by
  constructor
  · norm_num [common_nodes]
  · norm_num [claimedCommonNodes, packAgent, pos2, dummyNode, dummyPos]

/-- Folding the membership indicator equals the filtered count. -/
lemma foldl_indicator_count (p : Pos) (others : List (List Pos)) (acc : ℚ) :
    others.foldl (fun a row => a + (if p ∈ row then 1 else 0)) acc =
      acc + ((others.filter (fun row => decide (p ∈ row))).length : ℚ) := by
  induction others generalizing acc with
  | nil => simp
  | cons r rs ih =>
      by_cases h : p ∈ r <;> simp [List.filter, h, ih] <;> ring

/-- Claim C9 (amended): for each populated node index of the path under
analysis, the route-popularity feature equals the number of other agents
whose stored (unpacked) shortest-position row contains that exact position
anywhere, as direction-agnostic set membership. -/
theorem C9_common_nodes_amended (positions : List Pos)
    (others : List (List Pos)) (k : ℕ) (hk : k < positions.length) :
    common_nodes positions others k =
      ((others.filter
          (fun row => decide (positions.getD k dummyPos ∈ row))).length : ℚ) := by
  simp only [common_nodes, if_pos hk]
  rw [foldl_indicator_count]
  ring

/-- Claim C9 witness: one other agent sharing the node gives count 1. -/
theorem C9_common_nodes_amended_witness :
    common_nodes [(5, 5)] [[(5, 5)], [(1, 1)]] 0 =
      (([[(5, 5)], [(1, 1)]].filter
          (fun row => decide (([((5, 5) : Pos)].getD 0 dummyPos) ∈ row))).length : ℚ) :=
  C9_common_nodes_amended [(5, 5)] [[(5, 5)], [(1, 1)]] 0 (by norm_num)

/-- A range increment leaves other channels unchanged. -/
lemma rangeIncrement_ne (f : ℕ → ℕ → ℚ) (lo len chan j c : ℕ)
    (h : c ≠ chan) : rangeIncrement f lo len chan j c = f j c := by
  unfold rangeIncrement
  rw [if_neg]
  rintro ⟨_, _, hc⟩
  exact h hc

/-- A range increment never decreases an entry. -/
lemma rangeIncrement_le (f : ℕ → ℕ → ℚ) (lo len chan j c : ℕ) :
    f j c ≤ rangeIncrement f lo len chan j c := by
  unfold rangeIncrement
  split_ifs <;> linarith

/-- Value of a range increment on its own channel. -/
lemma rangeIncrement_chan (f : ℕ → ℕ → ℚ) (lo len chan j : ℕ) :
    rangeIncrement f lo len chan j chan =
      f j chan + (if lo ≤ j ∧ j < len then 1 else 0) := by
  unfold rangeIncrement
  by_cases h : lo ≤ j ∧ j < len
  · rw [if_pos ⟨h.1, h.2, rfl⟩, if_pos h]
  · rw [if_neg, if_neg h]
    · simp
    · rintro ⟨a, b, _⟩
      exact h ⟨a, b⟩

/-- The agent-count update preserves the malfunction-below-total invariant
at every index, for either direction channel. -/
lemma numUpdate_inv (num : ℕ → ℕ → ℚ) (index len dir : ℕ)
    (hdir : dir = 0 ∨ dir = 1) (mal : ℚ) (j : ℕ)
    (h0 : num j 2 ≤ num j 0) (h1 : num j 3 ≤ num j 1) :
    numUpdate num index len dir mal j 2 ≤ numUpdate num index len dir mal j 0 ∧
    numUpdate num index len dir mal j 3 ≤ numUpdate num index len dir mal j 1 := by
  rcases hdir with rfl | rfl <;> by_cases hm : 0 < mal <;>
    simp only [numUpdate] <;> [rw [if_pos hm]; rw [if_neg hm];
      rw [if_pos hm]; rw [if_neg hm]]
  · constructor
    · rw [rangeIncrement_chan,
        rangeIncrement_ne _ _ _ _ _ _ (by norm_num : (2 : ℕ) ≠ 0),
        rangeIncrement_ne _ _ _ _ _ _ (by norm_num : (0 : ℕ) ≠ 2),
        rangeIncrement_chan]
      exact add_le_add_right h0 _
    · rw [rangeIncrement_ne _ _ _ _ _ _ (by norm_num : (3 : ℕ) ≠ 2),
        rangeIncrement_ne _ _ _ _ _ _ (by norm_num : (3 : ℕ) ≠ 0),
        rangeIncrement_ne _ _ _ _ _ _ (by norm_num : (1 : ℕ) ≠ 2),
        rangeIncrement_ne _ _ _ _ _ _ (by norm_num : (1 : ℕ) ≠ 0)]
      exact h1
  · constructor
    · rw [rangeIncrement_ne _ _ _ _ _ _ (by norm_num : (2 : ℕ) ≠ 0)]
      exact le_trans h0 (rangeIncrement_le _ _ _ _ _ _)
    · rw [rangeIncrement_ne _ _ _ _ _ _ (by norm_num : (3 : ℕ) ≠ 0),
        rangeIncrement_ne _ _ _ _ _ _ (by norm_num : (1 : ℕ) ≠ 0)]
      exact h1
  · constructor
    · rw [rangeIncrement_ne _ _ _ _ _ _ (by norm_num : (2 : ℕ) ≠ 3),
        rangeIncrement_ne _ _ _ _ _ _ (by norm_num : (2 : ℕ) ≠ 1),
        rangeIncrement_ne _ _ _ _ _ _ (by norm_num : (0 : ℕ) ≠ 3),
        rangeIncrement_ne _ _ _ _ _ _ (by norm_num : (0 : ℕ) ≠ 1)]
      exact h0
    · rw [rangeIncrement_chan,
        rangeIncrement_ne _ _ _ _ _ _ (by norm_num : (3 : ℕ) ≠ 1),
        rangeIncrement_ne _ _ _ _ _ _ (by norm_num : (1 : ℕ) ≠ 3),
        rangeIncrement_chan]
      exact add_le_add_right h1 _
  · constructor
    · rw [rangeIncrement_ne _ _ _ _ _ _ (by norm_num : (2 : ℕ) ≠ 1),
        rangeIncrement_ne _ _ _ _ _ _ (by norm_num : (0 : ℕ) ≠ 1)]
      exact h0
    · rw [rangeIncrement_ne _ _ _ _ _ _ (by norm_num : (3 : ℕ) ≠ 1)]
      exact le_trans h1 (rangeIncrement_le _ _ _ _ _ _)

/-- One step of the other-agent loop preserves the malfunction-below-total
invariant. -/
lemma processOtherAgent_inv (selfSD : SpeedData) (path : List Node)
    (cw : ℕ → ℚ) (st : AIPState) (ag : OtherAgent)
    (h : ∀ j, st.num_agents j 2 ≤ st.num_agents j 0 ∧
      st.num_agents j 3 ≤ st.num_agents j 1) (j : ℕ) :
    (processOtherAgent selfSD path cw st ag).num_agents j 2 ≤
      (processOtherAgent selfSD path cw st ag).num_agents j 0 ∧
    (processOtherAgent selfSD path cw st ag).num_agents j 3 ≤
      (processOtherAgent selfSD path cw st ag).num_agents j 1 := by
  unfold processOtherAgent
  by_cases hp : ag.present
  · rw [if_pos hp]
    cases hm : firstColocatedMatch path ag.colocated with
    | none => exact h j
    | some x =>
        obtain ⟨n, idx⟩ := x
        dsimp only
        apply numUpdate_inv
        · by_cases hb : classifyOpposite path idx ag.node n ag.nextNodes = true
          · rw [if_pos hb]
            exact Or.inr rfl
          · rw [if_neg hb]
            exact Or.inl rfl
        · exact (h j).1
        · exact (h j).2
  · rw [if_neg hp]
    exact h j

/-- The full fold of agents_in_path preserves the invariant. -/
lemma agents_in_path_fold_inv (selfSD : SpeedData) (path : List Node)
    (cw : ℕ → ℚ) (others : List OtherAgent) (st : AIPState)
    (h : ∀ j, st.num_agents j 2 ≤ st.num_agents j 0 ∧
      st.num_agents j 3 ≤ st.num_agents j 1) (j : ℕ) :
    (others.foldl (processOtherAgent selfSD path cw) st).num_agents j 2 ≤
      (others.foldl (processOtherAgent selfSD path cw) st).num_agents j 0 ∧
    (others.foldl (processOtherAgent selfSD path cw) st).num_agents j 3 ≤
      (others.foldl (processOtherAgent selfSD path cw) st).num_agents j 1 := by
  induction others generalizing st with
  | nil => exact h j
  | cons a rest ih =>
      exact ih (processOtherAgent selfSD path cw st a)
        (processOtherAgent_inv selfSD path cw st a h)

/-- Claim C10: with no previous-count seeding, at every node index the count
of malfunctioning agents per direction (channels 2 and 3) is at most the
count of all agents in the corresponding direction (channels 0 and 1),
since a malfunction channel is incremented only when the matching total
channel is incremented and the other agent's malfunction duration is
positive. -/
theorem C10_malfunction_count_bound (selfSD : SpeedData) (path : List Node)
    (cw : ℕ → ℚ) (others : List OtherAgent) (j : ℕ) :
    (agents_in_path selfSD path cw none others).num_agents j 2 ≤
      (agents_in_path selfSD path cw none others).num_agents j 0 ∧
    (agents_in_path selfSD path cw none others).num_agents j 3 ≤
      (agents_in_path selfSD path cw none others).num_agents j 1 := by
  unfold agents_in_path
  exact agents_in_path_fold_inv selfSD path cw others _
    (fun _ => ⟨le_refl _, le_refl _⟩) j

/-- Claim C6: a deadlock is flagged for a pair of consecutive-node edges
exactly when this agent's edge is the exact reverse of the other agent's
edge (this source equals the other dest and this dest equals the other
source) and the two cumulative-weight intervals on that edge overlap
(neither interval strictly precedes the other); after the first such match
for a given other agent no further edges of that agent are scanned, so each
other agent contributes at most one deadlock increment per path. -/
theorem C6_find_deadlocks (selfSD : SpeedData) (positions : List Pos)
    (cw : ℕ → ℚ) (opath : List Pos) (pw : ℕ → ℚ) (st : DLState)
    (ag : DLAgent) :
    (∀ i j, findFirstDeadlock positions cw opath pw = some (i, j) →
      i + 1 < opath.length ∧ j + 1 < positions.length ∧
      opath.getD i dummyPos ≠ fillPos ∧ opath.getD (i + 1) dummyPos ≠ fillPos ∧
      positions.getD j dummyPos = opath.getD (i + 1) dummyPos ∧
      positions.getD (j + 1) dummyPos = opath.getD i dummyPos ∧
      ¬(pw (i + 1) < cw j) ∧ ¬(cw (j + 1) < pw i)) ∧
    (findFirstDeadlock positions cw opath pw = none →
      ∀ i j, i + 1 < opath.length → j + 1 < positions.length →
        opath.getD i dummyPos ≠ fillPos →
        opath.getD (i + 1) dummyPos ≠ fillPos →
        ¬(positions.getD j dummyPos = opath.getD (i + 1) dummyPos ∧
          positions.getD (j + 1) dummyPos = opath.getD i dummyPos ∧
          ¬(pw (i + 1) < cw j) ∧ ¬(cw (j + 1) < pw i))) ∧
    (findFirstDeadlock positions cw ag.path ag.weights = none →
      processDeadlockAgent selfSD positions cw st ag = st) ∧
    (∀ k, (processDeadlockAgent selfSD positions cw st ag).deadlocks k ≤
      st.deadlocks k + 1) := by
  refine ⟨?_, ?_, ?_, ?_⟩
  · intro i j h
    unfold findFirstDeadlock at h
    obtain ⟨i0, hi0, hf⟩ := List.exists_of_findSome?_eq_some h
    rw [List.mem_range] at hi0
    by_cases hinf : opath.getD i0 dummyPos ≠ fillPos ∧
        opath.getD (i0 + 1) dummyPos ≠ fillPos
    · rw [if_pos hinf] at hf
      cases hfind : (List.range (positions.length - 1)).find?
          (edgeMatchB positions cw (opath.getD i0 dummyPos)
            (opath.getD (i0 + 1) dummyPos) (pw i0) (pw (i0 + 1))) with
      | none =>
          rw [hfind] at hf
          exact absurd hf (by simp)
      | some j0 =>
          rw [hfind] at hf
          have hij : i0 = i ∧ j0 = j := by
            have := Option.some.inj hf
            exact ⟨congrArg Prod.fst this, congrArg Prod.snd this⟩
          obtain ⟨rfl, rfl⟩ := hij
          have hj0 := List.mem_of_find?_eq_some hfind
          rw [List.mem_range] at hj0
          have hmB := List.find?_some hfind
          simp only [edgeMatchB, Bool.and_eq_true, beq_iff_eq,
            Bool.not_eq_true', decide_eq_false_iff_not] at hmB
          exact ⟨by omega, by omega, hinf.1, hinf.2,
            hmB.1.1.1, hmB.1.1.2, hmB.1.2, hmB.2⟩
    · rw [if_neg hinf] at hf
      exact absurd hf (by simp)
  · intro h i j hi hj hin1 hin2 hmatch
    unfold findFirstDeadlock at h
    rw [List.findSome?_eq_none] at h
    have hi' := h i (List.mem_range.2 (by omega))
    rw [if_pos ⟨hin1, hin2⟩] at hi'
    cases hfind : (List.range (positions.length - 1)).find?
        (edgeMatchB positions cw (opath.getD i dummyPos)
          (opath.getD (i + 1) dummyPos) (pw i) (pw (i + 1))) with
    | some j0 =>
        rw [hfind] at hi'
        exact absurd hi' (by simp)
    | none =>
        rw [List.find?_eq_none] at hfind
        apply hfind j (List.mem_range.2 (by omega))
        simp only [edgeMatchB, Bool.and_eq_true, beq_iff_eq,
          Bool.not_eq_true', decide_eq_false_iff_not]
        exact ⟨⟨⟨hmatch.1, hmatch.2.1⟩, hmatch.2.2.1⟩, hmatch.2.2.2⟩
  · intro h
    simp only [processDeadlockAgent, h]
  · intro k
    unfold processDeadlockAgent
    cases hq : findFirstDeadlock positions cw ag.path ag.weights with
    | none =>
        dsimp only
        linarith [le_refl (st.deadlocks k)]
    | some x =>
        obtain ⟨i, j⟩ := x
        dsimp only
        split_ifs <;> linarith

/-- Claim C6 witness: a concrete reverse-edge scenario with overlapping
windows is flagged at the first pair of indices, with all the stated
properties. -/
theorem C6_find_deadlocks_witness :
    0 + 1 < ([(0, 1), (0, 0)] : List Pos).length ∧
    0 + 1 < ([(0, 0), (0, 1)] : List Pos).length ∧
    ([(0, 1), (0, 0)] : List Pos).getD 0 dummyPos ≠ fillPos ∧
    ([(0, 1), (0, 0)] : List Pos).getD (0 + 1) dummyPos ≠ fillPos ∧
    ([(0, 0), (0, 1)] : List Pos).getD 0 dummyPos =
      ([(0, 1), (0, 0)] : List Pos).getD (0 + 1) dummyPos ∧
    ([(0, 0), (0, 1)] : List Pos).getD (0 + 1) dummyPos =
      ([(0, 1), (0, 0)] : List Pos).getD 0 dummyPos ∧
    ¬(((0 + 1 : ℕ) : ℚ) < ((0 : ℕ) : ℚ)) ∧
    ¬(((0 + 1 : ℕ) : ℚ) < ((0 : ℕ) : ℚ)) :=
  (C6_find_deadlocks ⟨1, 0⟩ [(0, 0), (0, 1)] (fun j => (j : ℚ))
    [(0, 1), (0, 0)] (fun i => (i : ℚ)) ⟨fun _ => 0, fun _ => none⟩
    ⟨[], fun _ => 0, ⟨1, 0⟩⟩).1 0 0
    (by norm_num [findFirstDeadlock, edgeMatchB, fillPos, dummyPos,
      List.range, List.range.loop, List.findSome?, List.find?, Prod.ext_iff])

/-- Unfolding step of the cumulative sum. -/
lemma cumsumFrom_cons (acc x : ℚ) (l : List ℚ) :
    cumsumFrom acc (x :: l) = (acc + x) :: cumsumFrom (acc + x) l := rfl

/-- A cumulative sum whose increments past the first are non-negative is
non-decreasing. -/
lemma cumsumFrom_chain (l : List ℚ) (acc x : ℚ) (h : ∀ y ∈ l, 0 ≤ y) :
    List.Chain' (fun a b => a ≤ b) (cumsumFrom acc (x :: l)) := by
  induction l generalizing acc x with
  | nil => simp [cumsumFrom]
  | cons y ys ih =>
      rw [cumsumFrom_cons, cumsumFrom_cons, List.chain'_cons]
      constructor
      · have hy : 0 ≤ y := h y (by simp)
        linarith
      · have := ih (acc + x) y (fun z hz => h z (by simp [hz]))
        rw [cumsumFrom_cons] at this
        exact this

/-- compute_cumulative_weights is non-decreasing when the edge weights and
the tick count are non-negative. -/
lemma compute_cumulative_weights_chain (times : ℤ) (ws : List ℚ) (init : ℚ)
    (hw : ∀ w ∈ ws, 0 ≤ w) (ht : 0 ≤ times) :
    List.Chain' (fun a b => a ≤ b)
      (compute_cumulative_weights times ws init) := by
  unfold compute_cumulative_weights
  apply cumsumFrom_chain
  intro y hy
  rw [List.mem_map] at hy
  obtain ⟨w, hw', rfl⟩ := hy
  exact mul_nonneg (hw w hw') (by exact_mod_cast ht)

/-- The packed weights of a row are non-decreasing: the recomputed leading
weight is non-positive while the first retained cumulative weight is
non-negative. -/
lemma packed_weights_chain (lastNode : Node) (lastW : ℚ) (sd : SpeedData)
    (path : List Node) (positions : List Pos) (ws : List ℚ) (init : ℚ)
    (hw : ∀ w ∈ ws, 0 ≤ w) (hst : 0 ≤ sd.times) (hinit : 0 ≤ init)
    (hlw : 0 ≤ lastW) (hrem : sd.remaining ≤ sd.times) :
    List.Chain' (fun a b => a ≤ b)
      ((packAgent lastNode lastW sd path positions
          (compute_cumulative_weights sd.times ws init)).2) := by
  have htq : (0 : ℚ) ≤ (sd.times : ℚ) := by exact_mod_cast hst
  have hremq : (sd.remaining : ℚ) ≤ (sd.times : ℚ) := by exact_mod_cast hrem
  unfold packAgent
  dsimp only
  cases ws with
  | nil => simp [compute_cumulative_weights, cumsumFrom]
  | cons w ws' =>
      have hwt : 0 ≤ w * (sd.times : ℚ) :=
        mul_nonneg (hw w (by simp)) htq
      show List.Chain' (fun a b => a ≤ b) (_ :: (cumsumFrom 0
        (init :: (List.map (fun w => w * (sd.times : ℚ)) (w :: ws')))).tail)
      rw [List.map_cons, cumsumFrom_cons, List.tail_cons, cumsumFrom_cons,
        List.chain'_cons]
      constructor
      · split_ifs with hhd
        · linarith
        · simp only [compute_cumulative_weights, List.map_cons,
            cumsumFrom_cons, List.headD_cons]
          linarith
      · have := cumsumFrom_chain (List.map (fun w => w * (sd.times : ℚ)) ws')
          (0 + init) (w * (sd.times : ℚ))
          (fun z hz => by
            rw [List.mem_map] at hz
            obtain ⟨u, hu, rfl⟩ := hz
            exact mul_nonneg (hw u (by simp [hu])) htq)
        rw [cumsumFrom_cons] at this
        exact this

/-- One step of the deadlock loop preserves monotonicity of the deadlock
counts over the populated indices. -/
lemma processDeadlockAgent_mono (selfSD : SpeedData) (positions : List Pos)
    (cw : ℕ → ℚ) (st : DLState) (ag : DLAgent)
    (h : ∀ j k, j ≤ k → k < positions.length →
      st.deadlocks j ≤ st.deadlocks k) :
    ∀ j k, j ≤ k → k < positions.length →
      (processDeadlockAgent selfSD positions cw st ag).deadlocks j ≤
        (processDeadlockAgent selfSD positions cw st ag).deadlocks k := by
  intro j k hjk hk
  unfold processDeadlockAgent
  cases hq : findFirstDeadlock positions cw ag.path ag.weights with
  | none =>
      dsimp only
      exact h j k hjk hk
  | some x =>
      obtain ⟨i, j0⟩ := x
      dsimp only
      by_cases c1 : j0 ≤ j ∧ j < positions.length <;>
        by_cases c2 : j0 ≤ k ∧ k < positions.length
      · rw [if_pos c1, if_pos c2]
        exact add_le_add_right (h j k hjk hk) 1
      · exact absurd ⟨le_trans c1.1 hjk, hk⟩ c2
      · rw [if_neg c1, if_pos c2]
        have := h j k hjk hk
        linarith
      · rw [if_neg c1, if_neg c2]
        exact h j k hjk hk

/-- The full fold of find_deadlocks preserves monotonicity. -/
lemma find_deadlocks_fold_mono (selfSD : SpeedData) (positions : List Pos)
    (cw : ℕ → ℚ) (others : List DLAgent) (st : DLState)
    (h : ∀ j k, j ≤ k → k < positions.length →
      st.deadlocks j ≤ st.deadlocks k) :
    ∀ j k, j ≤ k → k < positions.length →
      (others.foldl (processDeadlockAgent selfSD positions cw) st).deadlocks j ≤
        (others.foldl (processDeadlockAgent selfSD positions cw) st).deadlocks k := by
  induction others generalizing st with
  | nil => exact h
  | cons a rest ih =>
      exact ih (processDeadlockAgent selfSD positions cw st a)
        (processDeadlockAgent_mono selfSD positions cw st a h)

/-- Claim C8: within every populated path row the cumulative-weight
sequence is non-decreasing (for computed rows given non-negative edge
weights, and for packed rows whose first entry may be negative), and the
deadlock counts are non-decreasing left to right over the populated
indices. -/
theorem C8_row_monotonicity (times : ℤ) (edgeWeights : List ℚ)
    (initial : ℚ) (lastNode : Node) (lastW : ℚ) (sd : SpeedData)
    (path : List Node) (positions : List Pos) (selfSD : SpeedData)
    (dpositions : List Pos) (cw : ℕ → ℚ) (others : List DLAgent)
    (prevD : ℚ) (j k : ℕ)
    (hw : ∀ w ∈ edgeWeights, 0 ≤ w) (ht : 0 ≤ times) (hinit : 0 ≤ initial)
    (hlw : 0 ≤ lastW) (hrem : sd.remaining ≤ sd.times) (hst : 0 ≤ sd.times)
    (hjk : j ≤ k) (hk : k < dpositions.length) :
    List.Chain' (fun a b => a ≤ b)
      (compute_cumulative_weights times edgeWeights initial) ∧
    List.Chain' (fun a b => a ≤ b)
      ((packAgent lastNode lastW sd path positions
          (compute_cumulative_weights sd.times edgeWeights initial)).2) ∧
    (find_deadlocks selfSD dpositions cw others prevD).deadlocks j ≤
      (find_deadlocks selfSD dpositions cw others prevD).deadlocks k := by
  refine ⟨compute_cumulative_weights_chain times edgeWeights initial hw ht,
    packed_weights_chain lastNode lastW sd path positions edgeWeights
      initial hw hst hinit hlw hrem, ?_⟩
  unfold find_deadlocks
  exact find_deadlocks_fold_mono selfSD dpositions cw others _
    (fun _ _ _ _ => le_refl _) j k hjk hk

/-- Claim C8 witness: a concrete instance of all three monotonicity
statements. -/
theorem C8_row_monotonicity_witness :
    List.Chain' (fun a b => a ≤ b)
      (compute_cumulative_weights 1 [1] 0) ∧
    List.Chain' (fun a b => a ≤ b)
      ((packAgent (0, 0, 0) 0 ⟨1, 0⟩ [] []
          (compute_cumulative_weights (SpeedData.mk 1 0).times [1] 0)).2) ∧
    (find_deadlocks ⟨1, 0⟩ [(0, 0)] (fun _ => 0) [] 0).deadlocks 0 ≤
      (find_deadlocks ⟨1, 0⟩ [(0, 0)] (fun _ => 0) [] 0).deadlocks 0 :=
  C8_row_monotonicity 1 [1] 0 (0, 0, 0) 0 ⟨1, 0⟩ [] [] ⟨1, 0⟩ [(0, 0)]
    (fun _ => 0) [] 0 0 0
    (by norm_num) (by norm_num) (by norm_num) (by norm_num) (by norm_num)
    (by norm_num) (by norm_num) (by norm_num)

end FlatlandObs
